import Mathlib

/-!
Verification of `check_state.py` — a tool that inventories a set of related
project checkouts and reconciles per-instance observations.

The development shallowly embeds the pure logic of the script:

* `basename`, `isabs` — the OS-neutral path helpers;
* `expand_folders` — the folder-spec resolver;
* the folder-list expansion loop of `pull_settings`;
* the path-iteration skeleton of `check_paths`;
* the `os.walk` file-statistics collection of `get_file_stats`;
* the `remote_differs` computation of `get_git_info`;
* `show_results` / `print_info` — the cross-instance reconciliation report.

Python dicts are modelled as insertion-ordered association lists, Python sets
as duplicate-free lists in insertion order, and fallible dictionary accesses
(`d[k]`) as `Except String` values carrying the exception message.  Machine
time stamps (floats in Python) are modelled as `Nat`: none of the verified
properties depend on fractional times.  String primitives (`replace`,
`rstrip`, `split`, slicing) are spelled out over `List Char` so that every
definition evaluates by kernel reduction.
-/

/-- Association-list lookup, first match wins (Python dict access `m[k]`,
with `none` playing the role of `KeyError`). -/
def lookupA {α : Type} (m : List (String × α)) (k : String) : Option α :=
  match m with
  | [] => none
  | (k', v) :: rest => if k' == k then some v else lookupA rest k

/-- Replace the value stored under `k` (Python dict assignment `m[k] = v` for a
key that is already present; keys and their order are unchanged). -/
def updateA {α : Type} (m : List (String × α)) (k : String) (v : α) : List (String × α) :=
  match m with
  | [] => []
  | (k', v') :: rest => if k' == k then (k', v) :: updateA rest k v else (k', v') :: updateA rest k v

/-- Python `set.add`: insertion-ordered set as a duplicate-free list. -/
def set_insert {α : Type} [BEq α] (s : List α) (x : α) : List α :=
  if s.contains x then s else s ++ [x]

/-- Split a character list at every character satisfying `p`, keeping empty
segments (Python `str.split(sep)` semantics for a one-character separator). -/
def splitPred (p : Char → Bool) : List Char → List (List Char)
  | [] => [[]]
  | c :: cs =>
    match splitPred p cs with
    | [] => [[c]]
    | g :: gs => if p c then [] :: g :: gs else (c :: g) :: gs

/-- First character of a string, if any. -/
def strHead (s : String) : Option Char := s.data.head?

/-- Last character of a string, if any. -/
def strLast (s : String) : Option Char := s.data.getLast?

/-- Python `s.rstrip(cs)` over an explicit character predicate. -/
def rstripPred (p : Char → Bool) (s : String) : String :=
  String.mk ((s.data.reverse.dropWhile p).reverse)

/-- `basename` from check_state.py:
`path.replace('\\', '/').rstrip('/').rsplit('/', 1)[-1]` — OS-neutral
basename (handles both separator conventions). -/
def basename (path : String) : String :=
  let slashed := path.data.map (fun c => if c == '\\' then '/' else c)
  let stripped := (slashed.reverse.dropWhile (fun c => c == '/')).reverse
  String.mk ((splitPred (fun c => c == '/') stripped).getLastD [])

/-- `isabs` from check_state.py:
`path.startswith('/') or len(path) > 1 and path[1] == ':'`. -/
def isabs (path : String) : Bool :=
  match path.data with
  | [] => false
  | c :: rest =>
    c == '/' ||
      (match rest with
       | c2 :: _ => c2 == ':'
       | [] => false)

/-- `os.path.join(a, b)` (posix flavour) for the shapes reachable in the
script: `b` joined onto `a` unless `b` is itself absolute. -/
def pyjoin (a b : String) : String :=
  if strHead b == some '/' then b
  else if a == "" || strLast a == some '/' then a ++ b
  else a ++ "/" ++ b

/-- `entry.rstrip('+/\\')` — strip the trailing marker characters from a
base-path marker entry. -/
def rstrip_marker (s : String) : String :=
  rstripPred (fun c => c == '+' || c == '/' || c == '\\') s

/-- One entry of an Instance's (already pulled) folder list: a plain string,
or a group of path strings (a JSON list, produced e.g. by `':name'`
substitution in `pull_settings`). -/
inductive FolderEntry : Type where
  | str : String → FolderEntry
  | group : List String → FolderEntry
deriving Repr, DecidableEq

/-- The value stored under the `'folders'` key of an instance: the JSON value
is either a string (the `':other'` instance-alias convention) or a list of
entries. -/
inductive FoldersVal : Type where
  | strVal : String → FoldersVal
  | listVal : List FolderEntry → FoldersVal
deriving Repr, DecidableEq

/-- One project set: its `'instance'` mapping, insertion-ordered. -/
structure SetCfg : Type where
  instances : List (String × FoldersVal)
deriving Repr, DecidableEq

/-- The main configuration document: the `'set'` mapping and the `'sub'`
table of shared sub-lists. -/
structure ConfigSets : Type where
  sets : List (String × SetCfg)
  sub : List (String × List String)
deriving Repr, DecidableEq

/-- Iterating a `folders` value the way `expand_folders`'s
`for entry in …['folders']` does: a JSON list yields its entries, a string
yields its characters one by one (each a one-character string). -/
def entriesOf : FoldersVal → List FolderEntry
  | .strVal s => s.data.map (fun c => .str (String.mk [c]))
  | .listVal es => es

/-- The error message raised by `expand_folders` for a relative path that
occurs while no base path is set. -/
def relErr (subdir set_ instance_ : String) : String :=
  "Relative path '" ++ subdir ++ "' before any base path in '" ++ set_ ++ "/" ++ instance_ ++ "'"

/-- Resolution of one subdir inside `expand_folders`'s inner loop: absolute
paths pass through; relative paths need a truthy current base path
(`if not cur_path: raise`) and are joined onto it. -/
def resolve_one (set_ instance_ : String) (cur : Option String) (subdir : String) :
    Except String String :=
  if isabs subdir then .ok subdir
  else
    match cur with
    | none => .error (relErr subdir set_ instance_)
    | some cp =>
      if cp == "" then .error (relErr subdir set_ instance_)
      else .ok (pyjoin cp subdir)

/-- The inner `for subdir in subdirs` loop of `expand_folders` over the
members of a group entry, appending resolved paths to the accumulator. -/
def resolve_group (set_ instance_ : String) (cur : Option String) (acc : List String) :
    List String → Except String (List String)
  | [] => .ok acc
  | s :: rest =>
    match resolve_one set_ instance_ cur s with
    | .error e => .error e
    | .ok p => resolve_group set_ instance_ cur (acc ++ [p]) rest

/-- The entry loop of `expand_folders`: a non-list entry whose basename is
`'+'` updates the current base path and contributes nothing; otherwise the
entry (or each member of a group entry) is resolved and appended. -/
def expand_go (set_ instance_ : String) (cur : Option String) (acc : List String) :
    List FolderEntry → Except String (List String)
  | [] => .ok acc
  | .str s :: rest =>
    if basename s == "+" then
      expand_go set_ instance_ (some (rstrip_marker s)) acc rest
    else
      match resolve_one set_ instance_ cur s with
      | .error e => .error e
      | .ok p => expand_go set_ instance_ cur (acc ++ [p]) rest
  | .group g :: rest =>
    match resolve_group set_ instance_ cur acc g with
    | .error e => .error e
    | .ok acc' => expand_go set_ instance_ cur acc' rest

/-- `expand_folders(db, set_, instance)`: unknown instance yields `[]`; an
unknown set is a `KeyError` (`db['set'][set_]`). -/
def expand_folders (db : ConfigSets) (set_ instance_ : String) :
    Except String (List String) :=
  match lookupA db.sets set_ with
  | none => .error "KeyError: set"
  | some cfg =>
    match lookupA cfg.instances instance_ with
    | none => .ok []
    | some fv => expand_go set_ instance_ none [] (entriesOf fv)

/-- Substitution step of `pull_settings`'s list comprehension
`sets['sub'][i[1:]] if i[0] == ':' else i` applied to one folder entry.
A string entry starting with `':'` is replaced by the named shared sub-list
(a `KeyError` if absent); an empty string entry is an `IndexError`
(`i[0]`); a nested list entry is compared `i[0] == ':'` against its first
element — if that element is the literal string `':'` the slice `i[1:]`
(a list) is used as a dict key, a `TypeError`. -/
def substEntry (sub : List (String × List String)) : FolderEntry → Except String FolderEntry
  | .str s =>
    match s.data with
    | [] => .error "IndexError: string index out of range"
    | c :: rest =>
      if c == ':' then
        match lookupA sub (String.mk rest) with
        | none => .error "KeyError: sub"
        | some l => .ok (.group l)
      else .ok (.str s)
  | .group g =>
    match g with
    | [] => .error "IndexError: list index out of range"
    | x :: _ =>
      if x == ":" then .error "TypeError: unhashable type: 'list'"
      else .ok (.group g)

/-- One iteration of `pull_settings`'s per-instance loop.  `folders[0] == ':'`
on a string value tests its first character and triggers the instance-alias
branch (`folders[1:]` is the referenced instance's name); on a list value it
tests the first element.  A list value otherwise has each `':name'` entry
replaced from the `'sub'` table in place; a string value not starting with
`':'` would be sliced-assigned (`folders[:] = …`), a `TypeError`. -/
def stepInstance (sub : List (String × List String))
    (st : List (String × FoldersVal)) (name : String) :
    Except String (List (String × FoldersVal)) :=
  match lookupA st name with
  | none => .error "KeyError: instance"
  | some fv =>
    match fv with
    | .strVal s =>
      match s.data with
      | [] => .error "IndexError: string index out of range"
      | c :: rest =>
        if c == ':' then
          match lookupA st (String.mk rest) with
          | none => .error "KeyError: instance"
          | some tv => .ok (updateA st name tv)
        else .error "TypeError: 'str' object does not support item assignment"
    | .listVal es =>
      match es with
      | [] => .error "IndexError: list index out of range"
      | e0 :: _ =>
        if e0 == FolderEntry.str ":" then .error "TypeError: unhashable type: 'list'"
        else
          match es.mapM (substEntry sub) with
          | .error e => .error e
          | .ok es' => .ok (updateA st name (.listVal es'))

/-- Sequencing of `stepInstance` over a list of instance names. -/
def pull_go (sub : List (String × List String))
    (st : List (String × FoldersVal)) : List String → Except String (List (String × FoldersVal))
  | [] => .ok st
  | n :: ns =>
    match stepInstance sub st n with
    | .error e => .error e
    | .ok st' => pull_go sub st' ns

/-- The folder-expansion loop of `pull_settings` for one project set: the
instances are visited in insertion order (dict iteration order), each step
rewriting that instance's `'folders'` value. -/
def pull_expand_set (sub : List (String × List String))
    (insts : List (String × FoldersVal)) : Except String (List (String × FoldersVal)) :=
  pull_go sub insts (insts.map (fun kv => kv.1))

/-- The full expansion pass of `pull_settings` over the configuration: every
set except the reserved `_TEMPLATE_` entry has its instances expanded. -/
def pull_settings_expand (cfg : ConfigSets) : Except String ConfigSets :=
  match cfg.sets.mapM (fun kv =>
      if kv.1 == "_TEMPLATE_" then Except.ok kv
      else
        match pull_expand_set cfg.sub kv.2.instances with
        | .error e => .error e
        | .ok insts' => .ok (kv.1, SetCfg.mk insts')) with
  | .error e => .error e
  | .ok sets' => .ok ⟨sets', cfg.sub⟩

/-- What the filesystem says about one path: absent, present but not a
directory, or a directory (`os.path.exists` / `os.path.isdir`). -/
inductive PathState : Type where
  | missing : PathState
  | notDir : PathState
  | isDir : PathState
deriving Repr, DecidableEq

/-- The path-iteration skeleton of `check_paths`: a missing path prints a
`No path` notice and is skipped (`continue`); an existing non-directory
raises, aborting the whole pass; a directory is probed (the probe payload is
abstracted to the path itself — the statistics collection is modelled
separately by `get_file_stats`).  Returns the notices and the probed paths. -/
def check_paths_go (fs : String → PathState) :
    List String → Except String (List String × List String)
  | [] => .ok ([], [])
  | p :: rest =>
    match fs p with
    | .missing =>
      match check_paths_go fs rest with
      | .error e => .error e
      | .ok (msgs, probed) => .ok (("No path '" ++ p ++ "'") :: msgs, probed)
    | .notDir => .error ("Path '" ++ p ++ "' is not a directory")
    | .isDir =>
      match check_paths_go fs rest with
      | .error e => .error e
      | .ok (msgs, probed) => .ok (msgs, p :: probed)

/-- `check_paths(db, set_, instance)` iterates the resolved folder list. -/
def check_paths (fs : String → PathState) (db : ConfigSets) (set_ instance_ : String) :
    Except String (List String × List String) :=
  match expand_folders db set_ instance_ with
  | .error e => .error e
  | .ok paths => check_paths_go fs paths

/-- A regular file as seen by `os.walk`/`os.stat`: name, `st_mtime` and
`st_size`. -/
structure FsFile : Type where
  name : String
  mtime : Nat
  size : Nat
deriving Repr, DecidableEq

mutual
/-- A directory tree: the regular files and the subdirectories of the root,
in listing order. -/
inductive FTree : Type where
  | node : List FsFile → FDirs → FTree
deriving Repr, DecidableEq

/-- The subdirectory listing of a directory: name/tree pairs in order. -/
inductive FDirs : Type where
  | nil : FDirs
  | cons : String → FTree → FDirs → FDirs
deriving Repr, DecidableEq
end

/-- The running `info` dict of `get_file_stats` (a `defaultdict(lambda: 0)`,
so every counter starts at 0; `latest_file` starts unset, modelled `""`). -/
structure FInfo : Type where
  file_count : Nat
  bytes : Nat
  latest : Nat
  latest_file : String
deriving Repr, DecidableEq

/-- The per-file body of `get_file_stats`'s inner loop: bump `file_count`,
take the stat, update `latest`/`latest_file` on a strictly newer mtime, add
the size to `bytes`. -/
def fileStep (subpath : String) (info : FInfo) (f : FsFile) : FInfo :=
  let filepath := pyjoin subpath f.name
  let info := { info with file_count := info.file_count + 1 }
  let info :=
    if info.latest < f.mtime then { info with latest := f.mtime, latest_file := filepath }
    else info
  { info with bytes := info.bytes + f.size }

mutual
/-- `os.walk` as used by `get_file_stats`: process the current directory's
files, then recurse into its subdirectories — with
`dirs[:] = [i for i in dirs if i != '.git']` pruning every `.git`
subdirectory (and thus its entire subtree) from the walk. -/
def walkTree (subpath : String) (info : FInfo) : FTree → FInfo
  | .node files dirs => walkDirs subpath (files.foldl (fileStep subpath) info) dirs

/-- Recursion of the pruned walk over a subdirectory listing. -/
def walkDirs (subpath : String) (info : FInfo) : FDirs → FInfo
  | .nil => info
  | .cons n t ds =>
    if n == ".git" then walkDirs subpath info ds
    else walkDirs subpath (walkTree (pyjoin subpath n) info t) ds
end

/-- `get_file_stats(path)` over a modelled directory tree rooted at `path`. -/
def get_file_stats (path : String) (t : FTree) : FInfo :=
  walkTree path ⟨0, 0, 0, ""⟩ t

mutual
/-- Specification-side count: the total number of regular files anywhere
under a tree, `.git` directories included. -/
def totalCount : FTree → Nat
  | .node files dirs => files.length + totalCountDirs dirs

/-- `totalCount` over a subdirectory listing. -/
def totalCountDirs : FDirs → Nat
  | .nil => 0
  | .cons _ t ds => totalCount t + totalCountDirs ds
end

mutual
/-- Specification-side count: the number of regular files under a tree that
are not inside any directory named `.git`. -/
def nonGitCount : FTree → Nat
  | .node files dirs => files.length + nonGitCountDirs dirs

/-- `nonGitCount` over a subdirectory listing. -/
def nonGitCountDirs : FDirs → Nat
  | .nil => 0
  | .cons n t ds => (if n == ".git" then 0 else nonGitCount t) + nonGitCountDirs ds
end

/-- Python `line.split()[0]` (whitespace tokenisation, empties dropped); the
lines it is applied to always carry a token, so the empty default is never
reached on reachable inputs. -/
def firstTok (line : String) : String :=
  String.mk (((splitPred Char.isWhitespace line.data).filter (fun w => !w.isEmpty)).headD [])

/-- `s.endswith(pat)` over the character lists. -/
def strEndsWith (s pat : String) : Bool :=
  pat.data.isSuffixOf s.data

/-- Python `s.split('\n')`. -/
def splitLines (s : String) : List String :=
  (splitPred (fun c => c == '\n') s.data).map String.mk

/-- The `remote_differs` computation at the end of `get_git_info`, as a
function of the stripped `git ls-remote` output, the current branch and the
local HEAD commit: skip everything if the listing is empty, otherwise keep
the lines ending in `refs/heads/<branch>` and accumulate
`remote_differs or commit.split()[0] != info['commit']` over them. -/
def remote_differs_calc (remotes branch commit : String) : Bool :=
  if remotes == "" then false
  else
    ((splitLines remotes).filter
        (fun i => strEndsWith i ("refs/heads/" ++ branch))).foldl
      (fun acc l => acc || (firstTok l != commit)) false

/-- One stored probe (`info` dict built by `check_paths`): the file statistics
are always present (from `get_file_stats`), the version-control fields are
present only when the path had a `.git` marker (`info.update(get_git_info …)`).
`mods` is `diff-index` output-or-`None` (`info['mods'] = info['mods'] or None`),
so its model is doubly optional: absent field, or present-but-`None`. -/
structure Probe : Type where
  subdir : String
  file_count : Nat
  bytes : Nat
  latest : Nat
  commit : Option String
  branch : Option String
  commit_time : Option Nat
  mods : Option (Option String)
  remote_differs : Option Bool
deriving Repr, DecidableEq

/-- One instance's latest Observation: run timestamp plus its probes. -/
structure Obs : Type where
  updated : Nat
  subdirs : List Probe
deriving Repr, DecidableEq

/-- `others['obs'][set_]`: instance name → latest Observation, in insertion
order. -/
abbrev Store : Type := List (String × Obs)

/-- `sorted(others['obs'][set_], key=lambda x: x == cur_instance)`: a stable
sort on a Boolean key, i.e. the keys not equal to the current instance in
insertion order, followed by those equal to it.  `cur_instance` may be absent
(`None`), which compares unequal to every string. -/
def sorted_keys (ks : List String) (cur : Option String) : List String :=
  ks.filter (fun k => !(some k == cur)) ++ ks.filter (fun k => some k == cur)

/-- A `defaultdict(lambda: set())`: key → insertion-ordered set. -/
abbrev SetMap (α : Type) : Type := List (String × List α)

/-- `m[k].add(x)` on a `defaultdict` of sets: the key is created at first
touch, preserving first-touch order. -/
def map_set_add {α : Type} [BEq α] (m : SetMap α) (k : String) (x : α) : SetMap α :=
  match m with
  | [] => [(k, [x])]
  | (k', s) :: rest =>
    if k' == k then (k', set_insert s x) :: rest else (k', s) :: map_set_add rest k x

/-- Reading `m[k]` on a `defaultdict` of sets without recording the created
empty set (sufficient for the places where the value is only read). -/
def lookupSet {α : Type} (m : SetMap α) (k : String) : List α :=
  match lookupA m k with
  | some s => s
  | none => []

/-- The three accumulator dicts of `show_results`'s first loop. -/
structure Maps : Type where
  commit : SetMap String
  commit_date : SetMap (Option Nat)
  latest_mod : SetMap Nat
deriving Repr, DecidableEq

/-- The body of `show_results`'s first loop over one observation's probes:
`commit[dir_].add(subdir['commit'])` (a `KeyError` when the probe has no
`commit` field), `commit_date[dir_].add(subdir.get('commit_time'))`,
`latest_mod[dir_].add(subdir['latest'])`. -/
def loop1_probes : List Probe → Maps → Except String Maps
  | [], m => .ok m
  | p :: ps, m =>
    match p.commit with
    | none => .error "KeyError: 'commit'"
    | some c =>
      let d := basename p.subdir
      loop1_probes ps
        { commit := map_set_add m.commit d c
          commit_date := map_set_add m.commit_date d p.commit_time
          latest_mod := map_set_add m.latest_mod d p.latest }

/-- `show_results`'s first loop over the sorted instance keys. -/
def loop1 (store : Store) : List String → Maps → Except String Maps
  | [], m => .ok m
  | k :: ks, m =>
    match lookupA store k with
    | none => .error "KeyError: instance"
    | some obs =>
      match loop1_probes obs.subdirs m with
      | .error e => .error e
      | .ok m' => loop1 store ks m'

/-- Python `max` over a set that may contain `None` (`commit_date` values):
a one-element set needs no comparison; otherwise comparing `None` with a
number is a `TypeError`. -/
def py_max_opt (s : List (Option Nat)) : Except String (Option Nat) :=
  match s with
  | [] => .error "ValueError: max() arg is an empty sequence"
  | [x] => .ok x
  | x :: xs =>
    if (x :: xs).contains none then .error "TypeError: '<' not supported"
    else .ok (some (((x :: xs).filterMap id).foldl max 0))

/-- `{k: max(commit_date[k]) for k in commit_date}`. -/
def max_commit_date (m : SetMap (Option Nat)) : Except String (List (String × Option Nat)) :=
  m.mapM (fun kv =>
    match py_max_opt kv.2 with
    | .error e => .error e
    | .ok v => .ok (kv.1, v))

/-- `{k: max(latest_mod[k]) for k in latest_mod}`; these sets hold plain
numbers and are never empty, so `max` cannot fail. -/
def max_mod_date (m : SetMap Nat) : List (String × Nat) :=
  m.map (fun kv => (kv.1, kv.2.foldl max 0))

/-- One printed table row of `print_info`, with the displayed values kept
symbolic (the time/size pretty-printers format the same data): basename of
the subdir, the `rem_ok`/`mods` Y-N flags, the counters, the 7-character
commit prefix with its mixed-commit star, and the latest/commit-date stars. -/
structure Row : Type where
  subdir_base : String
  rem_ok : Bool
  mods_flag : Bool
  file_count : Nat
  bytes : Nat
  commit_disp : String
  latest_mark : Bool
  commit_time_mark : Bool
deriving Repr, DecidableEq

/-- `print_info(info, latest=…, mark_commit=…, mark_date=…)`: reads
`info['latest']`, then `info['remote_differs']` and `info['mods']`
unconditionally (a `KeyError` when the probe has no such field), while
`commit` and `commit_time` are read with `.get`. -/
def print_info (info : Probe) (latest : Option Nat) (mark_commit mark_date : Bool) :
    Except String Row :=
  let latest_star := some info.latest == latest
  match info.remote_differs with
  | none => .error "KeyError: 'remote_differs'"
  | some rd =>
    match info.mods with
    | none => .error "KeyError: 'mods'"
    | some mods =>
      .ok
        { subdir_base := basename info.subdir
          rem_ok := !rd
          mods_flag := mods.isSome
          file_count := info.file_count
          bytes := info.bytes
          commit_disp :=
            String.mk ((info.commit.getD "").data.take 7) ++ (if mark_commit then "*" else " ")
          latest_mark := latest_star
          commit_time_mark := mark_date }

/-- The body of `show_results`'s second loop over one observation's probes:
compute `mark_commit` from the size of `commit[dir_]`, record the name in
`mixed_commits` when set, read `max_commit_date[dir_]` (a plain dict access)
and `max_mod_date.get(dir_)`, and render the row. -/
def loop2_probes (m : Maps) (mcd : List (String × Option Nat)) (mmd : List (String × Nat)) :
    List Probe → List String → List Row → Except String (List String × List Row)
  | [], mixed, rows => .ok (mixed, rows)
  | p :: ps, mixed, rows =>
    let d := basename p.subdir
    let mark_commit := (lookupSet m.commit d).length != 1
    let mixed' := if mark_commit then set_insert mixed d else mixed
    match lookupA mcd d with
    | none => .error "KeyError: max_commit_date"
    | some mx =>
      match print_info p (lookupA mmd d) mark_commit (p.commit_time == mx) with
      | .error e => .error e
      | .ok row => loop2_probes m mcd mmd ps mixed' (rows ++ [row])

/-- `show_results`'s second loop over the sorted instance keys, printing one
block (header line plus rows) per instance. -/
def loop2 (store : Store) (m : Maps) (mcd : List (String × Option Nat))
    (mmd : List (String × Nat)) :
    List String → List String → List (String × List Row) →
      Except String (List String × List (String × List Row))
  | [], mixed, blocks => .ok (mixed, blocks)
  | k :: ks, mixed, blocks =>
    match lookupA store k with
    | none => .error "KeyError: instance"
    | some obs =>
      match loop2_probes m mcd mmd obs.subdirs mixed [] with
      | .error e => .error e
      | .ok (mixed', rows) => loop2 store m mcd mmd ks mixed' (blocks ++ [(k, rows)])

/-- Python `', '.join`. -/
def joinSep (sep : String) : List String → String
  | [] => ""
  | [x] => x
  | x :: y :: rest => x ++ sep ++ joinSep sep (y :: rest)

/-- The remedies loop at the end of `show_results`: for each of the current
instance's probes, `subdir['mods']` and `subdir['remote_differs']` are read
unconditionally and a suggestion is emitted for each truthy one. -/
def remedies_of : List Probe → Except String (List String)
  | [] => .ok []
  | p :: ps =>
    match p.mods with
    | none => .error "KeyError: 'mods'"
    | some mods =>
      match p.remote_differs with
      | none => .error "KeyError: 'remote_differs'"
      | some rd =>
        match remedies_of ps with
        | .error e => .error e
        | .ok rest =>
          .ok
            ((if mods.isSome then
                ["cd '" ++ p.subdir ++ "' && git diff && git commit -a && git push"]
              else []) ++
              (if rd then ["cd '" ++ p.subdir ++ "' && git pull  # or maybe push"] else []) ++
              rest)

/-- The rendered reconciliation report: the per-instance blocks in print
order, the `mixed_commits` set (insertion-ordered), the warning line, and the
remedial suggestions. -/
structure Report : Type where
  blocks : List (String × List Row)
  mixed : List String
  warning : Option String
  remedies : List String
deriving Repr, DecidableEq

/-- `show_results(sets, others, set_, cur_instance)` for one project set:
sort the instances (current one last), accumulate the per-basename
commit/commit-date/latest-modification sets, take the per-basename maxima,
render every instance's block, emit the mixed-commit warning, and — when a
current instance is given (truthy) — the remedies derived from its probes. -/
def show_results (store : Store) (cur : Option String) : Except String Report :=
  let keys := sorted_keys (store.map (fun kv => kv.1)) cur
  match loop1 store keys ⟨[], [], []⟩ with
  | .error e => .error e
  | .ok m =>
    match max_commit_date m.commit_date with
    | .error e => .error e
    | .ok mcd =>
      let mmd := max_mod_date m.latest_mod
      match loop2 store m mcd mmd keys [] [] with
      | .error e => .error e
      | .ok (mixed, blocks) =>
        let warning :=
          if mixed.isEmpty then none
          else some ("WARNING: mixed commits for: " ++ joinSep ", " mixed)
        match cur with
        | none => .ok ⟨blocks, mixed, warning, []⟩
        | some c =>
          if c == "" then .ok ⟨blocks, mixed, warning, []⟩
          else
            match lookupA store c with
            | none => .error "KeyError: cur_instance"
            | some obs =>
              match remedies_of obs.subdirs with
              | .error e => .error e
              | .ok rs => .ok ⟨blocks, mixed, warning, rs⟩

/-- The first relative subdir produced by a folder-spec list before any
base-path marker entry has been seen: a plain entry whose basename is `'+'`
is a marker and stops the search; a plain absolute entry and the absolute
members of a group entry are passed over; the first relative subdir is
returned. -/
def firstOffending : List FolderEntry → Option String
  | [] => none
  | .str s :: rest =>
    if basename s == "+" then none
    else if isabs s then firstOffending rest
    else some s
  | .group g :: rest =>
    match g.find? (fun x => !(isabs x)) with
    | some x => some x
    | none => firstOffending rest

/-! Concrete fixtures used by the witness and counterexample theorems. -/

/-- A configuration whose only set `demo` knows only the instance `alpha`. -/
def db9 : ConfigSets := ⟨[("demo", ⟨[("alpha", .listVal [])]⟩)], []⟩

/-- A configuration whose instance `alpha` starts with a relative entry. -/
def db4 : ConfigSets := ⟨[("demo", ⟨[("alpha", .listVal [.str "proj1"])]⟩)], []⟩

/-- A configuration mixing a base marker, an absolute entry and a group. -/
def db8 : ConfigSets :=
  ⟨[("d", ⟨[("i", .listVal [.str "/base/+", .str "/abs", .group ["rel", "/gabs"]])]⟩)], []⟩

/-- A filesystem with one missing path, one non-directory and directories
everywhere else. -/
def fs5 : String → PathState :=
  fun s => if s == "gone" then .missing else if s == "file" then .notDir else .isDir

/-- A tree whose only file lives inside a `.git` directory. -/
def tGit : FTree := .node [] (.cons ".git" (.node [⟨"objects", 7, 3⟩] .nil) .nil)

/-- Shared sub-list table binding the name `a`. -/
def sub0 : List (String × List String) := [("a", ["X"])]

/-- Instances where `b`'s folder-spec is the single-element list `[":a"]`. -/
def insts0 : List (String × FoldersVal) :=
  [("a", .listVal [.str "/p"]), ("b", .listVal [.str ":a"])]

/-- What `pull_settings` makes of `insts0`: the `":a"` element is replaced
from the `'sub'` table, not aliased to instance `a`. -/
def out0 : List (String × FoldersVal) :=
  [("a", .listVal [.str "/p"]), ("b", .listVal [.group ["X"]])]

/-- Instances where `b`'s folder-spec is the plain string `":a"`. -/
def insts2 : List (String × FoldersVal) :=
  [("a", .listVal [.str "/p"]), ("b", .strVal ":a")]

/-- What `pull_settings` makes of `insts2`: `b` aliases instance `a`. -/
def out2 : List (String × FoldersVal) :=
  [("a", .listVal [.str "/p"]), ("b", .listVal [.str "/p"])]

/-- A version-controlled probe of `/a/proj1` at commit `aaa2222`. -/
def probeA : Probe :=
  ⟨"/a/proj1", 2, 10, 5, some "aaa2222", some "main", some 10, some none, some false⟩

/-- A version-controlled probe of `/b/proj1` at commit `bbb1111`. -/
def probeB : Probe :=
  ⟨"/b/proj1", 2, 10, 5, some "bbb1111", some "main", some 20, some none, some false⟩

/-- Two instances reporting `proj1` at different commits. -/
def store2 : Store := [("m2", ⟨100, [probeB]⟩), ("m1", ⟨90, [probeA]⟩)]

/-- A probe of a path that is not version-controlled: the version-control
fields are absent. -/
def probeP : Probe := ⟨"/a/px", 1, 3, 4, none, none, none, none, none⟩

/-- A store holding one observation with a non-version-controlled probe. -/
def store10 : Store := [("m1", ⟨90, [probeP]⟩)]

/-- The report produced by `show_results` on `store2` with `m2` current. -/
def r2 : Report :=
  ⟨[("m1", [⟨"proj1", true, false, 2, 10, "aaa2222*", true, false⟩]),
    ("m2", [⟨"proj1", true, false, 2, 10, "bbb1111*", true, true⟩])],
   ["proj1"], some "WARNING: mixed commits for: proj1", []⟩

/-! Generic lemmas about the association-list and set models. -/

theorem exists_lookupA_of_mem {α : Type} {m : List (String × α)} {k : String}
    (h : k ∈ m.map (fun kv => kv.1)) : ∃ v, lookupA m k = some v := by
  induction m with
  | nil => simp at h
  | cons kv rest ih =>
    by_cases hk : (kv.1 == k) = true
    · exact ⟨kv.2, by simp [lookupA, hk]⟩
    · have hrest : k ∈ rest.map (fun kv => kv.1) := by
        rcases List.mem_map.mp h with ⟨pq, hp, he⟩
        rcases List.mem_cons.mp hp with h1 | h1
        · exact absurd (beq_iff_eq.mpr (h1 ▸ he)) hk
        · exact List.mem_map.mpr ⟨pq, h1, he⟩
      rcases ih hrest with ⟨v, hv⟩
      exact ⟨v, by simpa [lookupA, hk] using hv⟩

theorem mem_map_fst_of_lookupA {α : Type} {m : List (String × α)} {k : String} {v : α}
    (h : lookupA m k = some v) : k ∈ m.map (fun kv => kv.1) := by
  induction m with
  | nil => simp [lookupA] at h
  | cons kv rest ih =>
    by_cases hk : kv.1 == k
    · simp [eq_of_beq hk]
    · simp only [lookupA, hk] at h
      simp [ih h]

theorem mem_sorted_keys {ks : List String} {k : String} (cur : Option String)
    (h : k ∈ ks) : k ∈ sorted_keys ks cur := by
  unfold sorted_keys
  by_cases hc : (some k == cur) = true
  · exact List.mem_append_right _ (List.mem_filter.mpr ⟨h, hc⟩)
  · exact List.mem_append_left _ (List.mem_filter.mpr ⟨h, by simp [hc]⟩)

/-! Lemmas about the pruned walk of `get_file_stats`. -/

theorem foldl_fileStep_count (sp : String) (files : List FsFile) (info : FInfo) :
    (files.foldl (fileStep sp) info).file_count = info.file_count + files.length := by
  induction files generalizing info with
  | nil => simp
  | cons f fs ih =>
    have hstep : (fileStep sp info f).file_count = info.file_count + 1 := by
      simp only [fileStep]
      split <;> rfl
    simp only [List.foldl_cons, ih, hstep, List.length_cons]
    omega

mutual
theorem walkTree_count : ∀ (t : FTree) (sp : String) (info : FInfo),
    (walkTree sp info t).file_count = info.file_count + nonGitCount t
  | .node files dirs, sp, info => by
    simp only [walkTree, nonGitCount]
    rw [walkDirs_count dirs sp _, foldl_fileStep_count]
    omega

theorem walkDirs_count : ∀ (ds : FDirs) (sp : String) (info : FInfo),
    (walkDirs sp info ds).file_count = info.file_count + nonGitCountDirs ds
  | .nil, _, _ => by simp [walkDirs, nonGitCountDirs]
  | .cons n t ds, sp, info => by
    simp only [walkDirs, nonGitCountDirs]
    by_cases h : (n == ".git") = true
    · rw [if_pos h, if_pos h, walkDirs_count ds sp info]
      omega
    · rw [if_neg h, if_neg h, walkDirs_count ds sp _, walkTree_count t (pyjoin sp n) info]
      omega
end

/-- C9: resolving an instance name that is not among a known set's instances
returns the empty folder list rather than raising. -/
theorem expand_folders_unknown_instance (db : ConfigSets) (set_ instance_ : String)
    (cfg : SetCfg) (hset : lookupA db.sets set_ = some cfg)
    (hinst : lookupA cfg.instances instance_ = none) :
    expand_folders db set_ instance_ = .ok [] := by
  simp only [expand_folders, hset, hinst]

/-- Witness for C9 at a concrete configuration: set `demo` exists, instance
`beta` does not. -/
theorem expand_folders_unknown_instance_witness :
    expand_folders db9 "demo" "beta" = .ok [] :=
  expand_folders_unknown_instance db9 "demo" "beta" ⟨[("alpha", .listVal [])]⟩ rfl rfl

/-- C5: in a probing pass, a missing path only contributes a `No path` notice
and the pass continues with the remaining paths, while a path that exists but
is not a directory raises, aborting the whole pass whatever follows. -/
theorem check_paths_go_missing_notdir (fs : String → PathState) (p : String)
    (rest : List String) :
    (fs p = .missing →
      check_paths_go fs (p :: rest) =
        (check_paths_go fs rest).map (fun r => (("No path '" ++ p ++ "'") :: r.1, r.2))) ∧
    (fs p = .notDir →
      check_paths_go fs (p :: rest) = .error ("Path '" ++ p ++ "' is not a directory")) := by
  constructor
  · intro h
    simp only [check_paths_go, h]
    cases check_paths_go fs rest <;> rfl
  · intro h
    simp only [check_paths_go, h]

/-- Witness for C5: at the concrete filesystem `fs5`, the missing path `gone`
is skipped and the non-directory `file` aborts. -/
theorem check_paths_go_missing_notdir_witness :
    (check_paths_go fs5 ("gone" :: ["ok1"]) =
        (check_paths_go fs5 ["ok1"]).map (fun r => (("No path '" ++ "gone" ++ "'") :: r.1, r.2))) ∧
      check_paths_go fs5 ("file" :: ["ok1"]) = .error ("Path '" ++ "file" ++ "' is not a directory") :=
  ⟨(check_paths_go_missing_notdir fs5 "gone" ["ok1"]).1 rfl,
   (check_paths_go_missing_notdir fs5 "file" ["ok1"]).2 rfl⟩

/-- C3 counterexample: on a tree whose only regular file lives inside `.git`,
`get_file_stats` reports `file_count = 0`, not the total file count 1 — the
walk prunes `.git` from the count as well as from the latest-modification
computation. -/
theorem get_file_stats_count_ne_total :
    ¬ (get_file_stats "/x" tGit).file_count = totalCount tGit := by decide

/-- C3 (amended): `get_file_stats` reports `file_count` equal to the number
of regular files under the tree that are outside every `.git` directory. -/
theorem get_file_stats_count_eq_nongit (path : String) (t : FTree) :
    (get_file_stats path t).file_count = nonGitCount t := by
  simpa [get_file_stats] using walkTree_count t path ⟨0, 0, 0, ""⟩

/-! Lemmas for the remote-divergence computation. -/

theorem foldl_or_eq_any (f : String → Bool) (L : List String) (b : Bool) :
    L.foldl (fun acc l => acc || f l) b = (b || L.any f) := by
  induction L generalizing b with
  | nil => simp
  | cons x xs ih => simp [ih, Bool.or_assoc]

theorem strEndsWith_empty_false {pat : String} (h : pat.data ≠ []) :
    strEndsWith "" pat = false := by
  unfold strEndsWith List.isSuffixOf
  cases hrev : pat.data.reverse with
  | nil => exact absurd (List.reverse_eq_nil_iff.mp hrev) h
  | cons c cs => simp [hrev, List.isPrefixOf]

/-- C6: `remote_differs` is true exactly when some line of the remote-refs
listing ends in `refs/heads/<branch>` and reports a first token (its hash)
different from the local HEAD commit; in particular an empty listing or one
with no matching line yields false. -/
theorem remote_differs_calc_iff (remotes branch commit : String) :
    remote_differs_calc remotes branch commit = true ↔
      ∃ l ∈ splitLines remotes,
        strEndsWith l ("refs/heads/" ++ branch) = true ∧ firstTok l ≠ commit := by
  have hpat : ("refs/heads/" ++ branch).data ≠ [] := by
    rw [String.data_append]
    intro hc
    have : ("refs/heads/").data = [] := List.append_eq_nil.mp hc |>.1
    simp at this
  unfold remote_differs_calc
  by_cases hr : (remotes == "") = true
  · have hre : remotes = "" := eq_of_beq hr
    subst hre
    simp only [hr, if_pos]
    constructor
    · intro hfalse
      exact absurd hfalse (by simp)
    · rintro ⟨l, hl, hend, -⟩
      have hl0 : l = "" := by
        have : splitLines "" = [""] := rfl
        rw [this] at hl
        simpa using hl
      subst hl0
      rw [strEndsWith_empty_false hpat] at hend
      exact absurd hend (by simp)
  · rw [if_neg hr, foldl_or_eq_any]
    simp only [Bool.false_or, List.any_eq_true, List.mem_filter]
    constructor
    · rintro ⟨l, ⟨hl, hend⟩, hne⟩
      exact ⟨l, hl, hend, bne_iff_ne.mp hne⟩
    · rintro ⟨l, hl, hend, hne⟩
      exact ⟨l, ⟨hl, hend⟩, bne_iff_ne.mpr hne⟩

/-! Lemmas for the folder resolver. -/

theorem resolve_group_offender (set_ instance_ : String) (g : List String) (r : String)
    (h : g.find? (fun x => !(isabs x)) = some r) :
    ∀ acc, resolve_group set_ instance_ none acc g = .error (relErr r set_ instance_) := by
  induction g with
  | nil => simp [List.find?] at h
  | cons x xs ih =>
    intro acc
    by_cases hx : isabs x = true
    · have hfind : xs.find? (fun x => !(isabs x)) = some r := by
        rw [List.find?_cons_of_neg _ (by simp [hx])] at h
        exact h
      have hres : resolve_one set_ instance_ none x = .ok x := by
        simp [resolve_one, hx]
      simp only [resolve_group, hres]
      exact ih hfind _
    · have hr : x = r := by
        rw [List.find?_cons_of_pos _ (by simp [hx])] at h
        exact Option.some.inj h
      subst hr
      have hres : resolve_one set_ instance_ none x = .error (relErr x set_ instance_) := by
        simp [resolve_one, hx]
      simp only [resolve_group, hres]

theorem resolve_group_all_abs (set_ instance_ : String) (cur : Option String)
    (g : List String) (hg : ∀ x ∈ g, isabs x = true) :
    ∀ acc, resolve_group set_ instance_ cur acc g = .ok (acc ++ g) := by
  induction g with
  | nil => intro acc; simp [resolve_group]
  | cons x xs ih =>
    intro acc
    have hres : resolve_one set_ instance_ cur x = .ok x := by
      simp [resolve_one, hg x (by simp)]
    simp only [resolve_group, hres]
    rw [ih (fun y hy => hg y (by simp [hy])) (acc ++ [x])]
    simp

theorem expand_go_offender (set_ instance_ : String) (es : List FolderEntry) (r : String)
    (hoff : firstOffending es = some r) :
    ∀ acc, expand_go set_ instance_ none acc es = .error (relErr r set_ instance_) := by
  induction es with
  | nil => simp [firstOffending] at hoff
  | cons e rest ih =>
    intro acc
    cases e with
    | str s =>
      by_cases hm : (basename s == "+") = true
      · rw [firstOffending] at hoff
        simp [hm] at hoff
      · by_cases ha : isabs s = true
        · have h' : firstOffending rest = some r := by
            rw [firstOffending] at hoff
            simpa [hm, ha] using hoff
          have hres : resolve_one set_ instance_ none s = .ok s := by
            simp [resolve_one, ha]
          simp only [expand_go, hm, if_false, hres, Bool.false_eq_true]
          exact ih h' _
        · have h' : s = r := by
            rw [firstOffending] at hoff
            simpa [hm, ha] using hoff
          subst h'
          have hres : resolve_one set_ instance_ none s = .error (relErr s set_ instance_) := by
            simp [resolve_one, ha]
          simp only [expand_go, hm, if_false, hres, Bool.false_eq_true]
    | group g =>
      cases hf : g.find? (fun x => !(isabs x)) with
      | some x =>
        have hr : x = r := by
          rw [firstOffending] at hoff
          rw [hf] at hoff
          exact Option.some.inj hoff
        rw [← hr]
        simp only [expand_go, resolve_group_offender set_ instance_ g x hf acc]
      | none =>
        have h' : firstOffending rest = some r := by
          rw [firstOffending] at hoff
          rw [hf] at hoff
          exact hoff
        have hall : ∀ x ∈ g, isabs x = true := by
          intro x hx
          have := List.find?_eq_none.mp hf x hx
          simpa using this
        simp only [expand_go, resolve_group_all_abs set_ instance_ none g hall acc]
        exact ih h' _

/-- C4: a folder-spec list whose first relative subdir occurs before any
base-path marker makes `expand_folders` fail with the configuration error
naming that subdir, the set and the instance — no silent join against an
unset base. -/
theorem expand_folders_relative_before_base (db : ConfigSets) (set_ instance_ : String)
    (cfg : SetCfg) (folders : List FolderEntry) (r : String)
    (hset : lookupA db.sets set_ = some cfg)
    (hinst : lookupA cfg.instances instance_ = some (.listVal folders))
    (hoff : firstOffending folders = some r) :
    expand_folders db set_ instance_ = .error (relErr r set_ instance_) := by
  simp only [expand_folders, hset, hinst, entriesOf]
  exact expand_go_offender set_ instance_ folders r hoff []

/-- Witness for C4: the concrete configuration `db4` starts with the relative
entry `proj1` and no base marker. -/
theorem expand_folders_relative_before_base_witness :
    expand_folders db4 "demo" "alpha" = .error (relErr "proj1" "demo" "alpha") :=
  expand_folders_relative_before_base db4 "demo" "alpha"
    ⟨[("alpha", .listVal [.str "proj1"])]⟩ [.str "proj1"] "proj1" rfl rfl rfl

theorem resolve_group_mono (set_ instance_ : String) (cur : Option String)
    (g : List String) :
    ∀ acc acc', resolve_group set_ instance_ cur acc g = .ok acc' → ∀ x ∈ acc, x ∈ acc' := by
  induction g with
  | nil =>
    intro acc acc' h x hx
    simp only [resolve_group] at h
    cases h
    exact hx
  | cons s xs ih =>
    intro acc acc' h x hx
    cases hres : resolve_one set_ instance_ cur s with
    | error e => simp [resolve_group, hres] at h
    | ok p =>
      simp only [resolve_group, hres] at h
      exact ih (acc ++ [p]) acc' h x (by simp [hx])

theorem resolve_group_abs_mem (set_ instance_ : String) (cur : Option String)
    (g : List String) (s : String) (habs : isabs s = true) :
    ∀ acc acc', resolve_group set_ instance_ cur acc g = .ok acc' → s ∈ g → s ∈ acc' := by
  induction g with
  | nil => intro acc acc' _ hs; simp at hs
  | cons x xs ih =>
    intro acc acc' h hs
    cases hres : resolve_one set_ instance_ cur x with
    | error e => simp [resolve_group, hres] at h
    | ok p =>
      simp only [resolve_group, hres] at h
      rcases List.mem_cons.mp hs with h1 | h1
      · subst h1
        have hp : p = s := by
          simp [resolve_one, habs] at hres
          exact hres.symm
        exact resolve_group_mono set_ instance_ cur xs _ _ h s (by simp [hp])
      · exact ih (acc ++ [p]) acc' h h1

theorem expand_go_mono (set_ instance_ : String) (es : List FolderEntry) :
    ∀ cur acc out, expand_go set_ instance_ cur acc es = .ok out → ∀ x ∈ acc, x ∈ out := by
  induction es with
  | nil =>
    intro cur acc out h x hx
    simp only [expand_go] at h
    cases h
    exact hx
  | cons e rest ih =>
    intro cur acc out h x hx
    cases e with
    | str s =>
      by_cases hm : (basename s == "+") = true
      · simp only [expand_go, hm, if_true] at h
        exact ih _ _ _ h x hx
      · cases hres : resolve_one set_ instance_ cur s with
        | error e' => simp [expand_go, hm, hres] at h
        | ok p =>
          simp only [expand_go, hm, if_false, hres, Bool.false_eq_true] at h
          exact ih _ _ _ h x (by simp [hx])
    | group g =>
      cases hres : resolve_group set_ instance_ cur acc g with
      | error e' => simp [expand_go, hres] at h
      | ok acc' =>
        simp only [expand_go, hres] at h
        exact ih _ _ _ h x (resolve_group_mono set_ instance_ cur g acc acc' hres x hx)

theorem expand_go_abs_mem (set_ instance_ : String) (s : String) (habs : isabs s = true)
    (es : List FolderEntry) :
    ∀ cur acc out, expand_go set_ instance_ cur acc es = .ok out →
      ((FolderEntry.str s ∈ es ∧ (basename s == "+") = false) ∨
        ∃ g, FolderEntry.group g ∈ es ∧ s ∈ g) →
      s ∈ out := by
  induction es with
  | nil =>
    intro cur acc out _ hmem
    rcases hmem with ⟨hs, -⟩ | ⟨g, hg, -⟩
    · simp at hs
    · simp at hg
  | cons e rest ih =>
    intro cur acc out h hmem
    cases e with
    | str t =>
      by_cases hm : (basename t == "+") = true
      · simp only [expand_go, hm, if_true] at h
        apply ih _ _ _ h
        rcases hmem with ⟨hs, hnm⟩ | ⟨g, hg, hsg⟩
        · rcases List.mem_cons.mp hs with h1 | h1
          · have hst : s = t := FolderEntry.str.inj h1
            rw [← hst] at hm
            rw [hnm] at hm
            exact absurd hm (by simp)
          · exact Or.inl ⟨h1, hnm⟩
        · rcases List.mem_cons.mp hg with h1 | h1
          · exact absurd h1 (by simp)
          · exact Or.inr ⟨g, h1, hsg⟩
      · cases hres : resolve_one set_ instance_ cur t with
        | error e' => simp [expand_go, hm, hres] at h
        | ok p =>
          simp only [expand_go, hm, if_false, hres, Bool.false_eq_true] at h
          rcases hmem with ⟨hs, hnm⟩ | ⟨g, hg, hsg⟩
          · rcases List.mem_cons.mp hs with h1 | h1
            · have hts : t = s := (FolderEntry.str.inj h1.symm)
              subst hts
              have hp : p = t := by
                simp [resolve_one, habs] at hres
                exact hres.symm
              exact expand_go_mono set_ instance_ rest _ _ _ h t (by simp [hp])
            · exact ih _ _ _ h (Or.inl ⟨h1, hnm⟩)
          · rcases List.mem_cons.mp hg with h1 | h1
            · exact absurd h1 (by simp)
            · exact ih _ _ _ h (Or.inr ⟨g, h1, hsg⟩)
    | group g0 =>
      cases hres : resolve_group set_ instance_ cur acc g0 with
      | error e' => simp [expand_go, hres] at h
      | ok acc' =>
        simp only [expand_go, hres] at h
        rcases hmem with ⟨hs, hnm⟩ | ⟨g, hg, hsg⟩
        · rcases List.mem_cons.mp hs with h1 | h1
          · exact absurd h1 (by simp)
          · exact ih _ _ _ h (Or.inl ⟨h1, hnm⟩)
        · rcases List.mem_cons.mp hg with h1 | h1
          · have hgg : g0 = g := (FolderEntry.group.inj h1.symm)
            subst hgg
            have hsa : s ∈ acc' :=
              resolve_group_abs_mem set_ instance_ cur g0 s habs acc acc' hres hsg
            exact expand_go_mono set_ instance_ rest _ _ _ h s hsa
          · exact ih _ _ _ h (Or.inr ⟨g, h1, hsg⟩)

/-- C8: an absolute path entry — a plain non-marker entry or a group member —
always appears unchanged in the resolved output, whatever the current base
path state. -/
theorem expand_folders_abs_passthrough (db : ConfigSets) (set_ instance_ : String)
    (cfg : SetCfg) (fv : FoldersVal) (out : List String) (s : String)
    (hset : lookupA db.sets set_ = some cfg)
    (hinst : lookupA cfg.instances instance_ = some fv)
    (habs : isabs s = true)
    (hmem : (FolderEntry.str s ∈ entriesOf fv ∧ (basename s == "+") = false) ∨
      ∃ g, FolderEntry.group g ∈ entriesOf fv ∧ s ∈ g)
    (hok : expand_folders db set_ instance_ = .ok out) :
    s ∈ out := by
  simp only [expand_folders, hset, hinst] at hok
  exact expand_go_abs_mem set_ instance_ s habs (entriesOf fv) none [] out hok hmem

/-- Witness for C8: in `db8` the absolute entry `/abs` survives resolution
unchanged even though a base path is in effect. -/
theorem expand_folders_abs_passthrough_witness :
    "/abs" ∈ ["/abs", "/base/rel", "/gabs"] :=
  expand_folders_abs_passthrough db8 "d" "i"
    ⟨[("i", .listVal [.str "/base/+", .str "/abs", .group ["rel", "/gabs"]])]⟩
    (.listVal [.str "/base/+", .str "/abs", .group ["rel", "/gabs"]])
    ["/abs", "/base/rel", "/gabs"] "/abs" rfl rfl rfl
    (Or.inl ⟨by decide, rfl⟩) rfl

/-! Lemmas for the `pull_settings` expansion loop. -/

theorem lookupA_updateA_ne {α : Type} (st : List (String × α)) (k m : String) (v : α)
    (h : ¬ m = k) : lookupA (updateA st k v) m = lookupA st m := by
  induction st with
  | nil => rfl
  | cons kv rest ih =>
    by_cases hk : (kv.1 == k) = true
    · have hm : (kv.1 == m) = false := by
        refine beq_eq_false_iff_ne.mpr ?_
        intro he
        exact h (he ▸ eq_of_beq hk)
      simp [updateA, lookupA, hk, hm, ih]
    · by_cases hm : (kv.1 == m) = true
      · simp [updateA, lookupA, hk, hm]
      · simp [updateA, lookupA, hk, hm, ih]

theorem lookupA_updateA_self {α : Type} (st : List (String × α)) (k : String) (v w : α)
    (h : lookupA st k = some w) : lookupA (updateA st k v) k = some v := by
  induction st with
  | nil => simp [lookupA] at h
  | cons kv rest ih =>
    by_cases hk : (kv.1 == k) = true
    · simp [updateA, lookupA, hk]
    · simp only [lookupA, hk, Bool.false_eq_true, if_false] at h
      simp [updateA, lookupA, hk, ih h]

theorem map_fst_updateA {α : Type} (st : List (String × α)) (k : String) (v : α) :
    (updateA st k v).map (fun kv => kv.1) = st.map (fun kv => kv.1) := by
  induction st with
  | nil => rfl
  | cons kv rest ih =>
    by_cases hk : (kv.1 == k) = true
    · simpa [updateA, hk, eq_of_beq hk] using ih
    · simpa [updateA, hk] using ih

theorem lookupA_append_left_none {α : Type} (l1 l2 : List (String × α)) (k : String)
    (h : k ∉ l1.map (fun kv => kv.1)) : lookupA (l1 ++ l2) k = lookupA l2 k := by
  induction l1 with
  | nil => rfl
  | cons kv rest ih =>
    have hk : (kv.1 == k) = false := beq_eq_false_iff_ne.mpr (fun he => h (by simp [he]))
    simp only [List.cons_append, lookupA, hk, Bool.false_eq_true, if_false]
    exact ih (fun hx => h (by simp [hx]))

theorem stepInstance_ok_shape (sub : List (String × List String))
    (st : List (String × FoldersVal)) (n : String) (st' : List (String × FoldersVal))
    (h : stepInstance sub st n = .ok st') : ∃ v, st' = updateA st n v := by
  unfold stepInstance at h
  repeat' split at h
  all_goals first
    | exact ⟨_, (Except.ok.inj h).symm⟩
    | exact absurd h (by simp)

theorem pull_go_lookup_notmem (sub : List (String × List String)) (m : String)
    (ns : List String) :
    ∀ st st', pull_go sub st ns = .ok st' → m ∉ ns → lookupA st' m = lookupA st m := by
  induction ns with
  | nil =>
    intro st st' h _
    cases h
    rfl
  | cons n ns ih =>
    intro st st' h hm
    cases hstep : stepInstance sub st n with
    | error e => simp [pull_go, hstep] at h
    | ok st1 =>
      simp only [pull_go, hstep] at h
      have h1 := ih st1 st' h (fun hx => hm (List.mem_cons_of_mem _ hx))
      rcases stepInstance_ok_shape _ _ _ _ hstep with ⟨v, hv⟩
      rw [h1, hv, lookupA_updateA_ne _ _ _ _ (fun he => hm (by simp [he]))]

theorem pull_go_map_fst (sub : List (String × List String)) (ns : List String) :
    ∀ st st', pull_go sub st ns = .ok st' →
      st'.map (fun kv => kv.1) = st.map (fun kv => kv.1) := by
  induction ns with
  | nil =>
    intro st st' h
    cases h
    rfl
  | cons n ns ih =>
    intro st st' h
    cases hstep : stepInstance sub st n with
    | error e => simp [pull_go, hstep] at h
    | ok st1 =>
      simp only [pull_go, hstep] at h
      rcases stepInstance_ok_shape _ _ _ _ hstep with ⟨v, hv⟩
      rw [ih st1 st' h, hv, map_fst_updateA]

theorem pull_go_append (sub : List (String × List String)) (xs ys : List String) :
    ∀ st, pull_go sub st (xs ++ ys) =
      match pull_go sub st xs with
      | .error e => .error e
      | .ok st1 => pull_go sub st1 ys := by
  induction xs with
  | nil => intro st; rfl
  | cons x xs ih =>
    intro st
    cases hstep : stepInstance sub st x with
    | error e => simp [pull_go, hstep]
    | ok st1 => simp [pull_go, hstep, ih]

/-- C2 counterexample: with the shared sub-list table binding `a`, the
single-element folder list `[":a"]` of instance `b` is expanded through the
`'sub'` table (`folders[0] == ':'` is false for the string `":a"`, so the
alias branch is not taken), leaving `b`'s folders different from instance
`a`'s folders. -/
theorem pull_expand_list_alias_not_instance :
    pull_expand_set sub0 insts0 = .ok out0 ∧ lookupA out0 "b" ≠ lookupA out0 "a" :=
  ⟨rfl, by decide⟩

/-- C2 (amended): the instance-alias marker is the plain string `":name"` as
the whole folder-spec (not a single-element list); when an instance `b`
carries such a value and the referenced instance occurs earlier in the set,
the load-time expansion leaves `b`'s folders equal to the referenced
instance's (already expanded) folders. -/
theorem pull_settings_alias_string (sub : List (String × List String))
    (l1 l2 : List (String × FoldersVal)) (b a : String)
    (st' : List (String × FoldersVal))
    (hnd : ((l1 ++ (b, FoldersVal.strVal (":" ++ a)) :: l2).map (fun kv => kv.1)).Nodup)
    (ha : a ∈ l1.map (fun kv => kv.1))
    (hok : pull_expand_set sub (l1 ++ (b, FoldersVal.strVal (":" ++ a)) :: l2) = .ok st') :
    lookupA st' b = lookupA st' a := by
  have hmap : (l1 ++ (b, FoldersVal.strVal (":" ++ a)) :: l2).map (fun kv => kv.1) =
      l1.map (fun kv => kv.1) ++ b :: l2.map (fun kv => kv.1) := by simp
  rw [hmap] at hnd
  rcases List.nodup_append.mp hnd with ⟨hnd1, hnd2, hdisj⟩
  have hbL : b ∉ l1.map (fun kv => kv.1) := fun hb => hdisj hb (List.mem_cons_self b _)
  have hbl2 : b ∉ l2.map (fun kv => kv.1) := (List.nodup_cons.mp hnd2).1
  have hanr : a ∉ b :: l2.map (fun kv => kv.1) := fun hx => hdisj ha hx
  have hab : ¬ a = b := fun he => hanr (by simp [he])
  have hal2 : a ∉ l2.map (fun kv => kv.1) := fun hx => hanr (by simp [hx])
  rw [pull_expand_set, hmap, pull_go_append] at hok
  cases h1 : pull_go sub (l1 ++ (b, FoldersVal.strVal (":" ++ a)) :: l2)
      (l1.map (fun kv => kv.1)) with
  | error e => rw [h1] at hok; exact absurd hok (by simp)
  | ok st1 =>
    rw [h1] at hok
    have hb1 : lookupA st1 b = some (FoldersVal.strVal (":" ++ a)) := by
      rw [pull_go_lookup_notmem sub b _ _ st1 h1 hbL,
        lookupA_append_left_none _ _ _ hbL]
      simp [lookupA]
    have hmapfst : st1.map (fun kv => kv.1) =
        (l1 ++ (b, FoldersVal.strVal (":" ++ a)) :: l2).map (fun kv => kv.1) :=
      pull_go_map_fst sub _ _ _ h1
    rcases exists_lookupA_of_mem (m := st1) (k := a)
        (by rw [hmapfst, hmap]; exact List.mem_append_left _ ha) with ⟨va, hva⟩
    have hdata : (":" ++ a).data = ':' :: a.data := by rw [String.data_append]; rfl
    have hmk : String.mk a.data = a := rfl
    have hstep : stepInstance sub st1 b = .ok (updateA st1 b va) := by
      unfold stepInstance
      rw [hb1]
      simp only [hdata, hmk]
      simp [hva]
    simp only [pull_go, hstep] at hok
    have hfb : lookupA st' b = lookupA (updateA st1 b va) b :=
      pull_go_lookup_notmem sub b _ _ _ hok hbl2
    have hfa : lookupA st' a = lookupA (updateA st1 b va) a :=
      pull_go_lookup_notmem sub a _ _ _ hok hal2
    rw [hfb, hfa, lookupA_updateA_self _ _ _ _ hb1, lookupA_updateA_ne _ _ _ _ hab, hva]

/-- Witness for the amended C2: instance `b` of `insts2` aliases instance `a`
by the string `":a"` and ends up with `a`'s folders. -/
theorem pull_settings_alias_string_witness :
    lookupA out2 "b" = lookupA out2 "a" :=
  pull_settings_alias_string [] [("a", .listVal [.str "/p"])] [] "b" "a" out2
    (by decide) (by decide) rfl

/-! Lemmas for the reconciliation report. -/

theorem loop1_probes_error_msg (ps : List Probe) :
    ∀ m e, loop1_probes ps m = .error e → e = "KeyError: 'commit'" := by
  induction ps with
  | nil => intro m e h; simp [loop1_probes] at h
  | cons p ps ih =>
    intro m e h
    cases hc : p.commit with
    | none =>
      simp only [loop1_probes, hc] at h
      exact (Except.error.inj h).symm
    | some c =>
      simp only [loop1_probes, hc] at h
      exact ih _ _ h

theorem loop1_probes_bad (ps : List Probe) :
    ∀ m, (∃ p ∈ ps, p.commit = none) → loop1_probes ps m = .error "KeyError: 'commit'" := by
  induction ps with
  | nil =>
    rintro m ⟨p, hp, -⟩
    simp at hp
  | cons q ps ih =>
    rintro m ⟨p, hp, hc⟩
    cases hq : q.commit with
    | none => simp [loop1_probes, hq]
    | some c =>
      simp only [loop1_probes, hq]
      rcases List.mem_cons.mp hp with h1 | h1
      · rw [h1] at hc
        simp [hc] at hq
      · exact ih _ ⟨p, h1, hc⟩

theorem loop1_bad (store : Store) (i : String) (obs : Obs)
    (hi : lookupA store i = some obs) (hbad : ∃ p ∈ obs.subdirs, p.commit = none)
    (ks : List String) :
    ∀ m, (∀ k ∈ ks, ∃ o, lookupA store k = some o) → i ∈ ks →
      loop1 store ks m = .error "KeyError: 'commit'" := by
  induction ks with
  | nil =>
    intro m _ hik
    simp at hik
  | cons k ks ih =>
    intro m hall hik
    rcases hall k (by simp) with ⟨o, ho⟩
    by_cases hki : k = i
    · subst hki
      have hoo : o = obs := by
        rw [ho] at hi
        exact Option.some.inj hi
      subst hoo
      simp only [loop1, ho, loop1_probes_bad o.subdirs m hbad]
    · cases hlp : loop1_probes o.subdirs m with
      | error e =>
        have hmsg := loop1_probes_error_msg _ _ _ hlp
        subst hmsg
        simp only [loop1, ho, hlp]
      | ok m' =>
        simp only [loop1, ho, hlp]
        have hik' : i ∈ ks := by
          rcases List.mem_cons.mp hik with h1 | h1
          · exact absurd h1.symm hki
          · exact h1
        exact ih m' (fun x hx => hall x (by simp [hx])) hik'

theorem mem_of_mem_sorted_keys {ks : List String} {k : String} {cur : Option String}
    (hk : k ∈ sorted_keys ks cur) : k ∈ ks := by
  unfold sorted_keys at hk
  rcases List.mem_append.mp hk with h1 | h1
  · exact (List.mem_filter.mp h1).1
  · exact (List.mem_filter.mp h1).1

/-- C10: rendering the report reads the version-control fields of every probe
unconditionally — the very first loop reads `subdir['commit']` — so a store
holding any probe of a non-version-controlled path (all version-control
fields absent) makes `show_results` fail with the lookup error instead of
producing a report. -/
theorem show_results_reads_vc_fields (store : Store) (cur : Option String)
    (i : String) (obs : Obs) (p : Probe)
    (hi : lookupA store i = some obs) (hp : p ∈ obs.subdirs)
    (hc : p.commit = none) (hb : p.branch = none) (hct : p.commit_time = none)
    (hm : p.mods = none) (hrd : p.remote_differs = none) :
    show_results store cur = .error "KeyError: 'commit'" := by
  have hik : i ∈ sorted_keys (store.map (fun kv => kv.1)) cur :=
    mem_sorted_keys cur (mem_map_fst_of_lookupA hi)
  have hall : ∀ k ∈ sorted_keys (store.map (fun kv => kv.1)) cur,
      ∃ o, lookupA store k = some o :=
    fun k hk => exists_lookupA_of_mem (mem_of_mem_sorted_keys hk)
  have hl1 := loop1_bad store i obs hi ⟨p, hp, hc⟩
    (sorted_keys (store.map (fun kv => kv.1)) cur) ⟨[], [], []⟩ hall hik
  simp only [show_results, hl1]

/-- Witness for C10: the store `store10` holds the plain probe `probeP` and
reconciliation fails. -/
theorem show_results_reads_vc_fields_witness :
    show_results store10 (some "m1") = .error "KeyError: 'commit'" :=
  show_results_reads_vc_fields store10 (some "m1") "m1" ⟨90, [probeP]⟩ probeP
    rfl (by decide) rfl rfl rfl rfl rfl

theorem show_results_ok_parts (store : Store) (cur : Option String) (r : Report)
    (hok : show_results store cur = .ok r) :
    ∃ m mcd mixed blocks,
      loop1 store (sorted_keys (store.map (fun kv => kv.1)) cur) ⟨[], [], []⟩ = .ok m ∧
        max_commit_date m.commit_date = .ok mcd ∧
        loop2 store m mcd (max_mod_date m.latest_mod)
          (sorted_keys (store.map (fun kv => kv.1)) cur) [] [] = .ok (mixed, blocks) ∧
        r.blocks = blocks ∧ r.mixed = mixed ∧
        r.warning = (if mixed.isEmpty then none
          else some ("WARNING: mixed commits for: " ++ joinSep ", " mixed)) := by
  simp only [show_results] at hok
  cases hl1 : loop1 store (sorted_keys (store.map (fun kv => kv.1)) cur) ⟨[], [], []⟩ with
  | error e => simp only [hl1] at hok; exact absurd hok (by simp)
  | ok m =>
    simp only [hl1] at hok
    cases hmcd : max_commit_date m.commit_date with
    | error e => simp only [hmcd] at hok; exact absurd hok (by simp)
    | ok mcd =>
      simp only [hmcd] at hok
      cases hl2 : loop2 store m mcd (max_mod_date m.latest_mod)
          (sorted_keys (store.map (fun kv => kv.1)) cur) [] [] with
      | error e => simp only [hl2] at hok; exact absurd hok (by simp)
      | ok pr =>
        obtain ⟨mixed, blocks⟩ := pr
        simp only [hl2] at hok
        refine ⟨m, mcd, mixed, blocks, rfl, hmcd, hl2, ?_⟩
        cases cur with
        | none =>
          dsimp only [] at hok
          have hr := Except.ok.inj hok
          rw [← hr]
          exact ⟨rfl, rfl, rfl⟩
        | some c =>
          dsimp only [] at hok
          by_cases hce : (c == "") = true
          · rw [if_pos hce] at hok
            have hr := Except.ok.inj hok
            rw [← hr]
            exact ⟨rfl, rfl, rfl⟩
          · rw [if_neg hce] at hok
            cases hlc : lookupA store c with
            | none => simp only [hlc] at hok; exact absurd hok (by simp)
            | some obs =>
              simp only [hlc] at hok
              cases hrem : remedies_of obs.subdirs with
              | error e => simp only [hrem] at hok; exact absurd hok (by simp)
              | ok rs =>
                simp only [hrem] at hok
                have hr := Except.ok.inj hok
                rw [← hr]
                exact ⟨rfl, rfl, rfl⟩

theorem loop2_blocks_map (store : Store) (m : Maps) (mcd : List (String × Option Nat))
    (mmd : List (String × Nat)) (ks : List String) :
    ∀ mixed blocks mx bl, loop2 store m mcd mmd ks mixed blocks = .ok (mx, bl) →
      bl.map (fun p => p.1) = blocks.map (fun p => p.1) ++ ks := by
  induction ks with
  | nil =>
    intro mixed blocks mx bl h
    cases h
    simp
  | cons k ks ih =>
    intro mixed blocks mx bl h
    cases ho : lookupA store k with
    | none => simp [loop2, ho] at h
    | some obs =>
      cases hlp : loop2_probes m mcd mmd obs.subdirs mixed [] with
      | error e => simp [loop2, ho, hlp] at h
      | ok pr =>
        obtain ⟨mixed', rows⟩ := pr
        simp only [loop2, ho, hlp] at h
        rw [ih _ _ _ _ h]
        simp

theorem filter_beq_nil_of_not_mem (l : List String) (c : String) (hc : c ∉ l) :
    l.filter (fun k => (k == c)) = [] := by
  induction l with
  | nil => rfl
  | cons x xs ih =>
    have hx : (x == c) = false :=
      beq_eq_false_iff_ne.mpr (fun he => hc (by simp [he]))
    simp only [List.filter_cons, hx, Bool.false_eq_true, if_false]
    exact ih (fun h1 => hc (by simp [h1]))

theorem filter_beq_self_of_nodup (l : List String) (c : String) (hnd : l.Nodup)
    (hc : c ∈ l) : l.filter (fun k => (k == c)) = [c] := by
  induction l with
  | nil => simp at hc
  | cons x xs ih =>
    rcases List.nodup_cons.mp hnd with ⟨hx, hxs⟩
    by_cases he : (x == c) = true
    · have hxc : x = c := eq_of_beq he
      subst hxc
      simp only [List.filter_cons, he, if_true]
      rw [filter_beq_nil_of_not_mem xs x hx]
    · have hcx : c ∈ xs := by
        rcases List.mem_cons.mp hc with h1 | h1
        · exact absurd (beq_iff_eq.mpr h1.symm) he
        · exact h1
      simp only [List.filter_cons, he, Bool.false_eq_true, if_false]
      exact ih hxs hcx

theorem sorted_keys_eq_of_nodup (ks : List String) (c : String) (hnd : ks.Nodup)
    (hc : c ∈ ks) :
    sorted_keys ks (some c) = ks.filter (fun k => !(k == c)) ++ [c] := by
  unfold sorted_keys
  have h1 : (fun k : String => !(some k == some c)) = (fun k : String => !(k == c)) := by
    funext k; rfl
  have h2 : (fun k : String => (some k == some c)) = (fun k : String => (k == c)) := by
    funext k; rfl
  rw [h1, h2, filter_beq_self_of_nodup ks c hnd hc]

/-- C7: the report prints the current instance's block last, and all other
instances in their insertion order, regardless of the current instance's
position in the store. -/
theorem show_results_cur_last (store : Store) (c : String) (r : Report)
    (hnd : (store.map (fun kv => kv.1)).Nodup)
    (hc : c ∈ store.map (fun kv => kv.1))
    (hok : show_results store (some c) = .ok r) :
    r.blocks.map (fun b => b.1) =
      (store.map (fun kv => kv.1)).filter (fun k => !(k == c)) ++ [c] := by
  rcases show_results_ok_parts store (some c) r hok with
    ⟨m, mcd, mixed, blocks, hl1, hmcd, hl2, hbl, hmx, hw⟩
  rw [hbl, loop2_blocks_map store m mcd (max_mod_date m.latest_mod) _ _ _ _ _ hl2]
  simp only [List.map_nil, List.nil_append]
  exact sorted_keys_eq_of_nodup _ c hnd hc

/-- Witness for C7: on `store2` with current instance `m2` (which is stored
first), the printed order is `m1` then `m2`. -/
theorem show_results_cur_last_witness :
    r2.blocks.map (fun b => b.1) =
      (store2.map (fun kv => kv.1)).filter (fun k => !(k == "m2")) ++ ["m2"] :=
  show_results_cur_last store2 "m2" r2 (by decide) (by decide) rfl

/-! Lemmas about the insertion-ordered set model. -/

theorem mem_set_insert_self {α : Type} [BEq α] [LawfulBEq α] (s : List α) (x : α) :
    x ∈ set_insert s x := by
  unfold set_insert
  split
  · next h => simpa using h
  · simp

theorem mem_set_insert_of_mem {α : Type} [BEq α] (s : List α) (x y : α) (h : y ∈ s) :
    y ∈ set_insert s x := by
  unfold set_insert
  split
  · exact h
  · simp [h]

theorem set_insert_nodup {α : Type} [BEq α] [LawfulBEq α] (s : List α) (x : α)
    (h : s.Nodup) : (set_insert s x).Nodup := by
  unfold set_insert
  split
  · exact h
  · next hc =>
    have hx : x ∉ s := by simpa using hc
    simp [List.nodup_append, h, hx]

theorem mem_lookupSet_add_self {α : Type} [BEq α] [LawfulBEq α] (m : SetMap α)
    (k : String) (x : α) : x ∈ lookupSet (map_set_add m k x) k := by
  induction m with
  | nil => simp [map_set_add, lookupSet, lookupA]
  | cons kv rest ih =>
    by_cases hk : (kv.1 == k) = true
    · simp only [map_set_add, hk, if_true, lookupSet, lookupA]
      exact mem_set_insert_self _ _
    · simpa [map_set_add, hk, lookupSet, lookupA] using ih

theorem mem_lookupSet_add_mono {α : Type} [BEq α] (m : SetMap α) (k d : String)
    (x y : α) (h : y ∈ lookupSet m d) : y ∈ lookupSet (map_set_add m k x) d := by
  induction m with
  | nil => simp [lookupSet, lookupA] at h
  | cons kv rest ih =>
    by_cases hd : (kv.1 == d) = true
    · by_cases hk : (kv.1 == k) = true
      · simp only [lookupSet, lookupA, hd] at h
        simp only [map_set_add, hk, if_true, lookupSet, lookupA, hd]
        exact mem_set_insert_of_mem _ _ _ h
      · simp only [lookupSet, lookupA, hd] at h
        simp only [map_set_add, hk, Bool.false_eq_true, if_false, lookupSet, lookupA, hd]
        exact h
    · simp only [lookupSet, lookupA, hd, Bool.false_eq_true, if_false] at h
      by_cases hk : (kv.1 == k) = true
      · simp only [map_set_add, hk, if_true, lookupSet, lookupA, hd, Bool.false_eq_true,
          if_false]
        exact h
      · simpa [map_set_add, hk, lookupSet, lookupA, hd] using ih h

/-! Lemmas about the commit-set accumulation of `show_results`. -/

theorem loop1_probes_commit_mono (ps : List Probe) :
    ∀ m m' c d, loop1_probes ps m = .ok m' →
      c ∈ lookupSet m.commit d → c ∈ lookupSet m'.commit d := by
  induction ps with
  | nil =>
    intro m m' c d h hc
    cases h
    exact hc
  | cons p ps ih =>
    intro m m' c d h hc
    cases hcm : p.commit with
    | none => simp [loop1_probes, hcm] at h
    | some c0 =>
      simp only [loop1_probes, hcm] at h
      exact ih _ _ _ _ h (mem_lookupSet_add_mono _ _ _ _ _ hc)

theorem loop1_probes_commit_add (ps : List Probe) :
    ∀ m m' p c, loop1_probes ps m = .ok m' → p ∈ ps → p.commit = some c →
      c ∈ lookupSet m'.commit (basename p.subdir) := by
  induction ps with
  | nil =>
    intro m m' p c _ hp
    simp at hp
  | cons q ps ih =>
    intro m m' p c h hp hpc
    cases hcm : q.commit with
    | none => simp [loop1_probes, hcm] at h
    | some c0 =>
      simp only [loop1_probes, hcm] at h
      rcases List.mem_cons.mp hp with h1 | h1
      · subst h1
        have hcc : c0 = c := Option.some.inj (hcm.symm.trans hpc)
        subst hcc
        exact loop1_probes_commit_mono ps _ _ _ _ h (mem_lookupSet_add_self _ _ _)
      · exact ih _ _ _ _ h h1 hpc

theorem loop1_commit_mono (store : Store) (ks : List String) :
    ∀ m m' c d, loop1 store ks m = .ok m' →
      c ∈ lookupSet m.commit d → c ∈ lookupSet m'.commit d := by
  induction ks with
  | nil =>
    intro m m' c d h hc
    cases h
    exact hc
  | cons k ks ih =>
    intro m m' c d h hc
    cases ho : lookupA store k with
    | none => simp [loop1, ho] at h
    | some o =>
      cases hlp : loop1_probes o.subdirs m with
      | error e => simp [loop1, ho, hlp] at h
      | ok m1 =>
        simp only [loop1, ho, hlp] at h
        exact ih _ _ _ _ h (loop1_probes_commit_mono _ _ _ _ _ hlp hc)

theorem loop1_commit_add (store : Store) (ks : List String) :
    ∀ m m' i obs p c, loop1 store ks m = .ok m' → i ∈ ks → lookupA store i = some obs →
      p ∈ obs.subdirs → p.commit = some c → c ∈ lookupSet m'.commit (basename p.subdir) := by
  induction ks with
  | nil =>
    intro m m' i obs p c _ hik
    simp at hik
  | cons k ks ih =>
    intro m m' i obs p c h hik hi hp hpc
    cases ho : lookupA store k with
    | none => simp [loop1, ho] at h
    | some o =>
      cases hlp : loop1_probes o.subdirs m with
      | error e => simp [loop1, ho, hlp] at h
      | ok m1 =>
        simp only [loop1, ho, hlp] at h
        by_cases hki : i = k
        · subst hki
          have hoo : o = obs := Option.some.inj (ho.symm.trans hi)
          subst hoo
          exact loop1_commit_mono store ks _ _ _ _ h
            (loop1_probes_commit_add _ _ _ _ _ hlp hp hpc)
        · have hik' : i ∈ ks := by
            rcases List.mem_cons.mp hik with h1 | h1
            · exact absurd h1 hki
            · exact h1
          exact ih _ _ _ _ _ _ h hik' hi hp hpc

theorem length_ne_one_of_two_mem {α : Type} (S : List α) (c1 c2 : α)
    (h1 : c1 ∈ S) (h2 : c2 ∈ S) (hne : ¬ c1 = c2) : ¬ S.length = 1 := by
  intro hlen
  rcases List.length_eq_one.mp hlen with ⟨x, hx⟩
  subst hx
  simp at h1 h2
  exact hne (h1.trans h2.symm)

/-! Lemmas about the mixed-commit accumulation of `show_results`. -/

theorem loop2_probes_mixed_mono (m : Maps) (mcd : List (String × Option Nat))
    (mmd : List (String × Nat)) (ps : List Probe) :
    ∀ mixed rows mixed' rows' b, loop2_probes m mcd mmd ps mixed rows = .ok (mixed', rows') →
      b ∈ mixed → b ∈ mixed' := by
  induction ps with
  | nil =>
    intro mixed rows mixed' rows' b h hb
    cases h
    exact hb
  | cons p ps ih =>
    intro mixed rows mixed' rows' b h hb
    simp only [loop2_probes] at h
    cases hmc : lookupA mcd (basename p.subdir) with
    | none => simp only [hmc] at h; exact absurd h (by simp)
    | some mx =>
      simp only [hmc] at h
      cases hpi : print_info p (lookupA mmd (basename p.subdir))
          ((lookupSet m.commit (basename p.subdir)).length != 1) (p.commit_time == mx) with
      | error e => simp only [hpi] at h; exact absurd h (by simp)
      | ok row =>
        simp only [hpi] at h
        refine ih _ _ _ _ _ h ?_
        by_cases hmark : ((lookupSet m.commit (basename p.subdir)).length != 1) = true
        · rw [if_pos hmark]
          exact mem_set_insert_of_mem _ _ _ hb
        · rw [if_neg hmark]
          exact hb

theorem loop2_probes_mixed_add (m : Maps) (mcd : List (String × Option Nat))
    (mmd : List (String × Nat)) (ps : List Probe) :
    ∀ mixed rows mixed' rows' p, loop2_probes m mcd mmd ps mixed rows = .ok (mixed', rows') →
      p ∈ ps → ((lookupSet m.commit (basename p.subdir)).length != 1) = true →
      basename p.subdir ∈ mixed' := by
  induction ps with
  | nil =>
    intro mixed rows mixed' rows' p _ hp
    simp at hp
  | cons q ps ih =>
    intro mixed rows mixed' rows' p h hp hlen
    simp only [loop2_probes] at h
    cases hmc : lookupA mcd (basename q.subdir) with
    | none => simp only [hmc] at h; exact absurd h (by simp)
    | some mx =>
      simp only [hmc] at h
      cases hpi : print_info q (lookupA mmd (basename q.subdir))
          ((lookupSet m.commit (basename q.subdir)).length != 1) (q.commit_time == mx) with
      | error e => simp only [hpi] at h; exact absurd h (by simp)
      | ok row =>
        simp only [hpi] at h
        rcases List.mem_cons.mp hp with h1 | h1
        · subst h1
          rw [if_pos hlen] at h
          exact loop2_probes_mixed_mono m mcd mmd ps _ _ _ _ _ h
            (mem_set_insert_self _ _)
        · exact ih _ _ _ _ _ h h1 hlen

theorem loop2_probes_mixed_nodup (m : Maps) (mcd : List (String × Option Nat))
    (mmd : List (String × Nat)) (ps : List Probe) :
    ∀ mixed rows mixed' rows', loop2_probes m mcd mmd ps mixed rows = .ok (mixed', rows') →
      mixed.Nodup → mixed'.Nodup := by
  induction ps with
  | nil =>
    intro mixed rows mixed' rows' h hnd
    cases h
    exact hnd
  | cons p ps ih =>
    intro mixed rows mixed' rows' h hnd
    simp only [loop2_probes] at h
    cases hmc : lookupA mcd (basename p.subdir) with
    | none => simp only [hmc] at h; exact absurd h (by simp)
    | some mx =>
      simp only [hmc] at h
      cases hpi : print_info p (lookupA mmd (basename p.subdir))
          ((lookupSet m.commit (basename p.subdir)).length != 1) (p.commit_time == mx) with
      | error e => simp only [hpi] at h; exact absurd h (by simp)
      | ok row =>
        simp only [hpi] at h
        refine ih _ _ _ _ h ?_
        by_cases hmark : ((lookupSet m.commit (basename p.subdir)).length != 1) = true
        · rw [if_pos hmark]
          exact set_insert_nodup _ _ hnd
        · rw [if_neg hmark]
          exact hnd

theorem loop2_mixed_mono (store : Store) (m : Maps) (mcd : List (String × Option Nat))
    (mmd : List (String × Nat)) (ks : List String) :
    ∀ mixed blocks mx bl b, loop2 store m mcd mmd ks mixed blocks = .ok (mx, bl) →
      b ∈ mixed → b ∈ mx := by
  induction ks with
  | nil =>
    intro mixed blocks mx bl b h hb
    cases h
    exact hb
  | cons k ks ih =>
    intro mixed blocks mx bl b h hb
    cases ho : lookupA store k with
    | none => simp [loop2, ho] at h
    | some obs =>
      cases hlp : loop2_probes m mcd mmd obs.subdirs mixed [] with
      | error e => simp [loop2, ho, hlp] at h
      | ok pr =>
        obtain ⟨mixed1, rows⟩ := pr
        simp only [loop2, ho, hlp] at h
        exact ih _ _ _ _ _ h (loop2_probes_mixed_mono m mcd mmd _ _ _ _ _ _ hlp hb)

theorem loop2_mixed_add (store : Store) (m : Maps) (mcd : List (String × Option Nat))
    (mmd : List (String × Nat)) (ks : List String) :
    ∀ mixed blocks mx bl i obs p, loop2 store m mcd mmd ks mixed blocks = .ok (mx, bl) →
      i ∈ ks → lookupA store i = some obs → p ∈ obs.subdirs →
      ((lookupSet m.commit (basename p.subdir)).length != 1) = true →
      basename p.subdir ∈ mx := by
  induction ks with
  | nil =>
    intro mixed blocks mx bl i obs p _ hik
    simp at hik
  | cons k ks ih =>
    intro mixed blocks mx bl i obs p h hik hi hp hlen
    cases ho : lookupA store k with
    | none => simp [loop2, ho] at h
    | some o =>
      cases hlp : loop2_probes m mcd mmd o.subdirs mixed [] with
      | error e => simp [loop2, ho, hlp] at h
      | ok pr =>
        obtain ⟨mixed1, rows⟩ := pr
        simp only [loop2, ho, hlp] at h
        by_cases hki : i = k
        · subst hki
          have hoo : o = obs := Option.some.inj (ho.symm.trans hi)
          subst hoo
          exact loop2_mixed_mono store m mcd mmd ks _ _ _ _ _ h
            (loop2_probes_mixed_add m mcd mmd _ _ _ _ _ _ hlp hp hlen)
        · have hik' : i ∈ ks := by
            rcases List.mem_cons.mp hik with h1 | h1
            · exact absurd h1 hki
            · exact h1
          exact ih _ _ _ _ _ _ _ h hik' hi hp hlen

theorem loop2_mixed_nodup (store : Store) (m : Maps) (mcd : List (String × Option Nat))
    (mmd : List (String × Nat)) (ks : List String) :
    ∀ mixed blocks mx bl, loop2 store m mcd mmd ks mixed blocks = .ok (mx, bl) →
      mixed.Nodup → mx.Nodup := by
  induction ks with
  | nil =>
    intro mixed blocks mx bl h hnd
    cases h
    exact hnd
  | cons k ks ih =>
    intro mixed blocks mx bl h hnd
    cases ho : lookupA store k with
    | none => simp [loop2, ho] at h
    | some obs =>
      cases hlp : loop2_probes m mcd mmd obs.subdirs mixed [] with
      | error e => simp [loop2, ho, hlp] at h
      | ok pr =>
        obtain ⟨mixed1, rows⟩ := pr
        simp only [loop2, ho, hlp] at h
        exact ih _ _ _ _ h (loop2_probes_mixed_nodup m mcd mmd _ _ _ _ _ hlp hnd)

/-- C1: when two instances' latest Observations hold probes of subdirs with
the same base-name but different commit hashes, reconciliation records the
mixed-commit flag for that base-name — it is in the `mixed_commits` set,
hence appears exactly once in the warning list — and the warning line is
emitted. -/
theorem show_results_mixed_commit (store : Store) (cur : Option String)
    (i1 i2 : String) (o1 o2 : Obs) (p1 p2 : Probe) (c1 c2 b : String) (r : Report)
    (hne : ¬ i1 = i2)
    (h1 : lookupA store i1 = some o1) (h2 : lookupA store i2 = some o2)
    (hp1 : p1 ∈ o1.subdirs) (hp2 : p2 ∈ o2.subdirs)
    (hb1 : basename p1.subdir = b) (hb2 : basename p2.subdir = b)
    (hc1 : p1.commit = some c1) (hc2 : p2.commit = some c2) (hcc : ¬ c1 = c2)
    (hok : show_results store cur = .ok r) :
    b ∈ r.mixed ∧ r.mixed.count b = 1 ∧ r.warning.isSome = true := by
  rcases show_results_ok_parts store cur r hok with
    ⟨m, mcd, mixed, blocks, hl1, hmcd, hl2, hbl, hmx, hw⟩
  have hi1k : i1 ∈ sorted_keys (store.map (fun kv => kv.1)) cur :=
    mem_sorted_keys cur (mem_map_fst_of_lookupA h1)
  have hi2k : i2 ∈ sorted_keys (store.map (fun kv => kv.1)) cur :=
    mem_sorted_keys cur (mem_map_fst_of_lookupA h2)
  have hc1m : c1 ∈ lookupSet m.commit b := by
    rw [← hb1]
    exact loop1_commit_add store _ _ _ i1 o1 p1 c1 hl1 hi1k h1 hp1 hc1
  have hc2m : c2 ∈ lookupSet m.commit b := by
    rw [← hb2]
    exact loop1_commit_add store _ _ _ i2 o2 p2 c2 hl1 hi2k h2 hp2 hc2
  have hlen : ((lookupSet m.commit b).length != 1) = true :=
    bne_iff_ne.mpr (length_ne_one_of_two_mem _ _ _ hc1m hc2m hcc)
  have hbm : b ∈ mixed := by
    rw [← hb1]
    exact loop2_mixed_add store m mcd (max_mod_date m.latest_mod) _ _ _ _ _ i1 o1 p1
      hl2 hi1k h1 hp1 (by rw [hb1]; exact hlen)
  have hndm : mixed.Nodup :=
    loop2_mixed_nodup store m mcd (max_mod_date m.latest_mod) _ _ _ _ _ hl2 (by simp)
  refine ⟨by rw [hmx]; exact hbm, ?_, ?_⟩
  · rw [hmx]
    exact List.count_eq_one_of_mem hndm hbm
  · rw [hw]
    have hne' : mixed.isEmpty = false := by
      cases mixed with
      | nil => simp at hbm
      | cons x xs => rfl
    simp [hne']

/-- Witness for C1: on `store2` the base-name `proj1` is reported at two
different commits, is flagged, appears once and triggers the warning. -/
theorem show_results_mixed_commit_witness :
    "proj1" ∈ r2.mixed ∧ r2.mixed.count "proj1" = 1 ∧ r2.warning.isSome = true :=
  show_results_mixed_commit store2 (some "m2") "m2" "m1" ⟨100, [probeB]⟩ ⟨90, [probeA]⟩
    probeB probeA "bbb1111" "aaa2222" "proj1" r2 (by decide) rfl rfl (by decide) (by decide)
    rfl rfl rfl rfl (by decide) rfl
